import Mathlib

/-!
Shallow embedding of the PTO tracker core (src/script.js, second variant,
lines 237-546): date normalization, accrual/usage ledger, default-entry
reconciliation, and state load/normalize/persist.  JS numbers are modelled
as exact rationals (ℚ); timestamps are integers (milliseconds since the
local epoch midnight).  Local-midnight normalization is modelled without
DST (the spec declares timezone correctness beyond local-midnight
normalization a non-goal), so a day is always MS_PER_DAY milliseconds.
-/

namespace PTO

/-- Milliseconds per day (src line 240: `1000 * 60 * 60 * 24`). -/
def MS_PER_DAY : ℤ := 1000 * 60 * 60 * 24

/-- Annual PTO allowance in days (src line 242). -/
def ACCRUAL_DAYS_PER_YEAR : ℚ := 20

/-- Standard PTO hours per day (src line 244). -/
def HOURS_PER_DAY : ℚ := 8

/-- One usage record `{ date, hours }` (spec §3): a calendar-day string and
an hour count (a JS number, modelled as ℚ). -/
structure Entry where
  date : String
  hours : ℚ
deriving DecidableEq, Repr

/-- The persisted record (spec §3): `startDate`, the entry list, and the
list of suppressed default entries.  The source stores suppressed defaults
as `{ date, hours }` objects (src line 467), i.e. entries. -/
structure State where
  startDate : String
  entries : List Entry
  suppressedDefaults : List Entry
deriving DecidableEq, Repr

/-- Hard-coded default PTO entries, 8h each (src lines 249-255). -/
def hard_coded_dates : List Entry :=
  [ { date := "2025-10-27", hours := HOURS_PER_DAY }
  , { date := "2025-12-10", hours := HOURS_PER_DAY }
  , { date := "2025-12-22", hours := HOURS_PER_DAY }
  , { date := "2025-12-23", hours := HOURS_PER_DAY }
  , { date := "2025-12-26", hours := HOURS_PER_DAY } ]

/-- Default state (src lines 258-262). -/
def defaultState : State :=
  { startDate := "2025-09-15", entries := [], suppressedDefaults := [] }

/-- Numeric value of a decimal digit character. -/
def digitVal (c : Char) : ℕ := c.toNat - 48

/-- Gregorian leap-year test. -/
def isLeapYear (y : ℤ) : Bool := (y % 4 == 0 && y % 100 != 0) || y % 400 == 0

/-- Number of days in month `m` of year `y`. -/
def daysInMonth (y : ℤ) (m : ℕ) : ℕ :=
  if m = 2 then (if isLeapYear y then 29 else 28)
  else if m = 4 ∨ m = 6 ∨ m = 9 ∨ m = 11 then 30
  else 31

/-- Days since 1970-01-01 of the civil date y-m-d (standard civil-calendar
day-number computation; all divisions below act on non-negative operands
for the 4-digit years the YYYY-MM-DD grammar admits, so the integer
division convention is immaterial). -/
def daysFromCivil (y : ℤ) (m d : ℕ) : ℤ :=
  let yAdj : ℤ := if m ≤ 2 then y - 1 else y
  let era : ℤ := (if 0 ≤ yAdj then yAdj else yAdj - 399) / 400
  let yoe : ℤ := yAdj - era * 400
  let mp : ℤ := ((m : ℤ) + 9) % 12
  let doy : ℤ := (153 * mp + 2) / 5 + (d : ℤ) - 1
  let doe : ℤ := yoe * 365 + yoe / 4 - yoe / 100 + doy
  era * 146097 + doe - 719468

/-- Embedding of `toStartOfDay` (src lines 539-546): an empty string is
falsy and yields null; otherwise the string is parsed as the calendar-day
grammar YYYY-MM-DD of the persisted schema (the JS code evaluates
`new Date(value + "T00:00:00")`, which for that grammar yields local
midnight of the day, and an invalid date — bad shape, month or day out of
range — yields NaN and hence null).  `none` models null; `some ts` models
the local-midnight timestamp in milliseconds. -/
def toStartOfDay (value : String) : Option ℤ :=
  if value = "" then none
  else
    match value.toList with
    | [y1, y2, y3, y4, s1, m1, m2, s2, d1, d2] =>
      if s1 = '-' ∧ s2 = '-' ∧ y1.isDigit ∧ y2.isDigit ∧ y3.isDigit ∧ y4.isDigit
          ∧ m1.isDigit ∧ m2.isDigit ∧ d1.isDigit ∧ d2.isDigit then
        let y : ℤ := (1000 * digitVal y1 + 100 * digitVal y2 + 10 * digitVal y3 + digitVal y4 : ℕ)
        let m : ℕ := 10 * digitVal m1 + digitVal m2
        let d : ℕ := 10 * digitVal d1 + digitVal d2
        if 1 ≤ m ∧ m ≤ 12 ∧ 1 ≤ d ∧ d ≤ daysInMonth y m then
          some (daysFromCivil y m d * MS_PER_DAY)
        else none
      else none
    | _ => none

/-- Embedding of `calculateAccruedHours` (src lines 394-405): 0 when either
date fails to normalize or the target precedes the start, otherwise the
fractional elapsed-day count times the per-day accrual. -/
def calculateAccruedHours (targetDateString : String) (state : State) : ℚ :=
  match toStartOfDay state.startDate, toStartOfDay targetDateString with
  | some start, some target =>
    if target < start then 0
    else
      let daysElapsed : ℚ := ((target : ℚ) - (start : ℚ)) / (MS_PER_DAY : ℚ)
      let accrualPerDay : ℚ := ACCRUAL_DAYS_PER_YEAR * HOURS_PER_DAY / 365
      daysElapsed * accrualPerDay
  | _, _ => 0

/-- Filter used by `calculateUsedHours` (src line 413):
`toStartOfDay(entry.date) <= target`.  When the entry's date normalizes,
this compares the two timestamps; when `toStartOfDay` returns null, the JS
relational comparison coerces null to 0, so the entry passes exactly when
`0 <= target`. -/
def usedPred (target : ℤ) (e : Entry) : Bool :=
  match toStartOfDay e.date with
  | some d => decide (d ≤ target)
  | none => decide ((0 : ℤ) ≤ target)

/-- Embedding of `calculateUsedHours` (src lines 407-415): 0 when the
target fails to normalize, otherwise the sum of hours over the filtered
entries.  The reduce term `Number(entry.hours || 0)` is the identity on a
numeric `hours` field (it maps 0 to 0 and any other number to itself). -/
def calculateUsedHours (targetDateString : String) (state : State) : ℚ :=
  match toStartOfDay targetDateString with
  | none => 0
  | some target =>
    ((state.entries.filter (usedPred target)).map (fun e => e.hours)).sum

/-- Embedding of `entryKey` (src lines 470-472): the source computes the
string `date + "|" + hours`; since a JS number's string form never
contains "|" and distinct numbers have distinct string forms, that
concatenation is injective on the (date, hours) pair, which we take as the
key directly. -/
def entryKey (entry : Entry) : String × ℚ := (entry.date, entry.hours)

/-- Loop of `mergeDefaultEntries` (src lines 451-457) as structural
recursion over the catalog: `seen` accumulates the keys already in the
merged list, `sup` is the suppressed key set; a catalog entry is appended
exactly when its key is in neither. -/
def mergeAux (sup : List (String × ℚ)) : List (String × ℚ) → List Entry → List Entry
  | _, [] => []
  | seen, e :: rest =>
    if entryKey e ∉ seen ∧ entryKey e ∉ sup then
      e :: mergeAux sup (entryKey e :: seen) rest
    else mergeAux sup seen rest

/-- Embedding of `mergeDefaultEntries` (src lines 446-459): the existing
entries followed by the catalog entries whose keys are new and not
suppressed. -/
def mergeDefaultEntries (existingEntries defaults suppressed : List Entry) : List Entry :=
  existingEntries ++ mergeAux (suppressed.map entryKey) (existingEntries.map entryKey) defaults

/-- Embedding of `addSuppressedDefault` (src lines 461-468). -/
def addSuppressedDefault (entry : Entry) (suppressed defaults : List Entry) : List Entry :=
  if entryKey entry ∉ defaults.map entryKey then suppressed
  else if entryKey entry ∈ suppressed.map entryKey then suppressed
  else suppressed ++ [{ date := entry.date, hours := entry.hours }]

/-- Embedding of the pure normalize-and-merge core of `ensureState`
(src lines 474-487) on an already loaded state.  `state.startDate ||
defaultState.startDate` replaces exactly the falsy strings, i.e. the empty
string; `state.entries || []` and `state.suppressedDefaults || []` are the
identity on the typed state (loadState always yields arrays, and a JS
array — even an empty one — is truthy).  The saveState call at the end is
the persistence boundary; the function returns exactly the value it
persists. -/
def ensureState (state : State) : State :=
  let normalized : State :=
    { startDate := if state.startDate = "" then defaultState.startDate else state.startDate
    , entries := state.entries
    , suppressedDefaults := state.suppressedDefaults }
  { normalized with
      entries := mergeDefaultEntries normalized.entries hard_coded_dates normalized.suppressedDefaults }

/-- Result of a successful `JSON.parse` of the persisted cookie value, as
far as `loadState` (src lines 496-505) inspects it: each schema field is
either absent (`none`) or present.  A present `entries` or
`suppressedDefaults` that is not an array is coerced to `[]` by
`Array.isArray`, which we fold into `none` as well. -/
structure ParsedState where
  startDate : Option String
  entries : Option (List Entry)
  suppressedDefaults : Option (List Entry)

/-- Raw persisted cookie value at the serialization boundary: absent, a
string `JSON.parse` rejects, or a successfully parsed object. -/
inductive RawState where
  | missing
  | malformed
  | ok (p : ParsedState)

/-- Embedding of `loadState` (src lines 489-511): the default state when
the cookie is absent or fails to parse (the catch swallows the parse
error, so no error reaches the caller), otherwise the parsed fields
spread over the defaults with array coercion. -/
def loadState : RawState → State
  | .missing => defaultState
  | .malformed => defaultState
  | .ok p =>
    { startDate := p.startDate.getD defaultState.startDate
    , entries := p.entries.getD []
    , suppressedDefaults := p.suppressedDefaults.getD [] }

/-- States that `loadState` itself passes to `saveState`: only the parse
failure branch re-persists (src line 508 calls `saveState(defaultState)`);
the missing branch (src lines 492-495) and the success branch write
nothing. -/
def loadStateSaves : RawState → List State
  | .malformed => [defaultState]
  | _ => []

/-- All states persisted while `ensureState` runs on the raw cookie value:
whatever `loadState` saved, then the reconciled state `ensureState` always
saves (src line 485). -/
def ensureSaves (raw : RawState) : List State :=
  loadStateSaves raw ++ [ensureState (loadState raw)]

/-- Embedding of the clear-all handler (src lines 328-336): load the
canonical state, persist it with `entries` emptied (keeping the rest of
the record), then reload through `ensureState`.  The cookie round-trip of
a well-formed state is modelled as the identity, so the reload sees
exactly the state just saved. -/
def clearEntriesHandler (persisted : State) : State :=
  let state := ensureState persisted
  ensureState { state with entries := ([] : List Entry) }

/-- Body of the history delete handler for an in-range index i (src lines
346-349): remove the i-th entry and record it as a suppressed default when
it came from the catalog.  The `none` branch is unreachable because the
caller's guard ensures i is in range. -/
def deleteEntryAt (state : State) (i : ℕ) : State :=
  match state.entries.get? i with
  | some entry =>
    { state with
        entries := state.entries.eraseIdx i
      , suppressedDefaults := addSuppressedDefault entry state.suppressedDefaults hard_coded_dates }
  | none => state

/-- Embedding of the history delete handler (src lines 339-354): the index
comes from `Number(button.dataset.deleteIndex)`, modelled as a rational
(`Number.isInteger` is the test that its denominator is 1; a NaN index
also fails `Number.isInteger` and behaves like the rejected case).  When
the guard `Number.isInteger(index) && index >= 0 && index <
state.entries.length` fails, nothing is saved and the canonical state
stays the one the initial `ensureState` produced. -/
def deleteHandler (persisted : State) (index : ℚ) : State :=
  if index.den = 1 ∧ 0 ≤ index ∧ index < ((ensureState persisted).entries.length : ℚ) then
    ensureState (deleteEntryAt (ensureState persisted) index.num.toNat)
  else ensureState persisted

/-- The `next` state built by the add-entry submit handler (src lines
313-318): the date input falls back to today's date string when empty
(falsy), and `Number(elements.ptoHours.value) || HOURS_PER_DAY` falls back
to 8 when the input's numeric value is NaN (modelled as `none`, e.g. a
non-numeric string) or 0 (e.g. an empty string or "0").  The handler then
saves this state and reloads through `ensureState`. -/
def addEntryNext (state : State) (dateInput todayStr : String) (hoursInput : Option ℚ) : State :=
  let entryDate := if dateInput = "" then todayStr else dateInput
  let hours := match hoursInput with
    | none => HOURS_PER_DAY
    | some q => if q = 0 then HOURS_PER_DAY else q
  { state with entries := state.entries ++ [{ date := entryDate, hours := hours }] }

end PTO

namespace PTO

/-! Case lemmas for the accrual computation. -/

/-- When both dates normalize, `calculateAccruedHours` is the guarded
accrual formula. -/
lemma calculateAccruedHours_some (t : String) (s : State) (ts tt : ℤ)
    (hs : toStartOfDay s.startDate = some ts) (ht : toStartOfDay t = some tt) :
    calculateAccruedHours t s =
      if tt < ts then 0
      else ((tt : ℚ) - (ts : ℚ)) / (MS_PER_DAY : ℚ)
        * (ACCRUAL_DAYS_PER_YEAR * HOURS_PER_DAY / 365) := by
  unfold calculateAccruedHours
  rw [hs, ht]

/-- When the start date fails to normalize, the accrual is 0. -/
lemma calculateAccruedHours_start_none (t : String) (s : State)
    (hs : toStartOfDay s.startDate = none) : calculateAccruedHours t s = 0 := by
  unfold calculateAccruedHours
  rw [hs]

/-- When the target date fails to normalize, the accrual is 0. -/
lemma calculateAccruedHours_target_none (t : String) (s : State)
    (ht : toStartOfDay t = none) : calculateAccruedHours t s = 0 := by
  unfold calculateAccruedHours
  rw [ht]
  cases toStartOfDay s.startDate <;> rfl

/-- C1: whenever the start date and the target date both normalize and the
target is not before the start, `calculateAccruedHours` returns exactly the
exclusive (non-floored) day delta `(target - start) / MS_PER_DAY` times
`20 * 8 / 365`; whenever either date fails to normalize or the target
precedes the start it returns 0; and it is never negative (being a total
function of the embedding, it never throws). -/
theorem calculateAccruedHours_C1 (t : String) (s : State) :
    (∀ ts tt : ℤ, toStartOfDay s.startDate = some ts → toStartOfDay t = some tt → ts ≤ tt →
      calculateAccruedHours t s =
        ((tt : ℚ) - (ts : ℚ)) / (MS_PER_DAY : ℚ) * (20 * 8 / 365)) ∧
    ((toStartOfDay s.startDate = none ∨ toStartOfDay t = none ∨
        (∃ ts tt : ℤ, toStartOfDay s.startDate = some ts ∧ toStartOfDay t = some tt ∧ tt < ts)) →
      calculateAccruedHours t s = 0) ∧
    0 ≤ calculateAccruedHours t s := by
  refine ⟨?_, ?_, ?_⟩
  · intro ts tt hs ht hle
    rw [calculateAccruedHours_some t s ts tt hs ht, if_neg (not_lt.mpr hle)]
    norm_num [ACCRUAL_DAYS_PER_YEAR, HOURS_PER_DAY]
  · rintro (hn | hn | ⟨ts, tt, hs, ht, hlt⟩)
    · exact calculateAccruedHours_start_none t s hn
    · exact calculateAccruedHours_target_none t s hn
    · rw [calculateAccruedHours_some t s ts tt hs ht, if_pos hlt]
  · rcases hs : toStartOfDay s.startDate with _ | ts
    · rw [calculateAccruedHours_start_none t s hs]
    · rcases ht : toStartOfDay t with _ | tt
      · rw [calculateAccruedHours_target_none t s ht]
      · rw [calculateAccruedHours_some t s ts tt hs ht]
        rcases lt_or_le tt ts with hlt | hle
        · rw [if_pos hlt]
        · rw [if_neg (not_lt.mpr hle)]
          apply mul_nonneg
          · apply div_nonneg
            · rw [sub_nonneg]
              exact_mod_cast hle
            · norm_num [MS_PER_DAY]
          · norm_num [ACCRUAL_DAYS_PER_YEAR, HOURS_PER_DAY]

/-- C1 witness: ten elapsed days from 2025-01-01 to 2025-01-11 accrue
`10 * (20 * 8 / 365)` hours, and a target before the start accrues 0. -/
theorem calculateAccruedHours_C1_witness :
    calculateAccruedHours "2025-01-11"
        { startDate := "2025-01-01", entries := [], suppressedDefaults := [] }
      = 10 * (20 * 8 / 365) ∧
    calculateAccruedHours "2025-01-01"
        { startDate := "2025-01-11", entries := [], suppressedDefaults := [] } = 0 := by
  constructor
  · have h := (calculateAccruedHours_C1 "2025-01-11"
      { startDate := "2025-01-01", entries := [], suppressedDefaults := [] }).1
      1735689600000 1736553600000 (by decide) (by decide) (by decide)
    rw [h]
    norm_num [MS_PER_DAY]
  · exact (calculateAccruedHours_C1 "2025-01-01"
      { startDate := "2025-01-11", entries := [], suppressedDefaults := [] }).2.1
      (Or.inr (Or.inr ⟨1736553600000, 1735689600000, by decide, by decide, by decide⟩))

/-! Lemmas about the reconciliation loop `mergeAux`. -/

/-- Unfolding equation of `mergeAux` on the empty catalog. -/
lemma mergeAux_nil (sup seen : List (String × ℚ)) : mergeAux sup seen [] = [] := rfl

/-- Unfolding equation of `mergeAux` on a catalog head. -/
lemma mergeAux_cons (sup seen : List (String × ℚ)) (e : Entry) (rest : List Entry) :
    mergeAux sup seen (e :: rest) =
      if entryKey e ∉ seen ∧ entryKey e ∉ sup then
        e :: mergeAux sup (entryKey e :: seen) rest
      else mergeAux sup seen rest := rfl

/-- The appended entries are a subsequence of the catalog, hence in
catalog order. -/
lemma mergeAux_sublist (sup : List (String × ℚ)) :
    ∀ (seen : List (String × ℚ)) (l : List Entry), (mergeAux sup seen l).Sublist l := by
  intro seen l
  induction l generalizing seen with
  | nil => simp [mergeAux_nil]
  | cons e rest ih =>
    rw [mergeAux_cons]
    by_cases hc : entryKey e ∉ seen ∧ entryKey e ∉ sup
    · rw [if_pos hc]
      exact List.Sublist.cons₂ e (ih _)
    · rw [if_neg hc]
      exact List.Sublist.cons e (ih seen)

/-- Every appended entry has a key outside both the initial seen set and
the suppressed set. -/
lemma mergeAux_not_seen (sup : List (String × ℚ)) :
    ∀ (seen : List (String × ℚ)) (l : List Entry), ∀ e ∈ mergeAux sup seen l,
      entryKey e ∉ seen ∧ entryKey e ∉ sup := by
  intro seen l
  induction l generalizing seen with
  | nil => intro e he; rw [mergeAux_nil] at he; exact absurd he (List.not_mem_nil e)
  | cons a rest ih =>
    intro e he
    rw [mergeAux_cons] at he
    by_cases hc : entryKey a ∉ seen ∧ entryKey a ∉ sup
    · rw [if_pos hc] at he
      rcases List.mem_cons.mp he with rfl | hrest
      · exact hc
      · have h := ih (entryKey a :: seen) e hrest
        exact ⟨fun hs => h.1 (List.mem_cons_of_mem _ hs), h.2⟩
    · rw [if_neg hc] at he
      exact ih seen e he

/-- Every non-suppressed catalog key ends up either already seen or among
the appended keys. -/
lemma mergeAux_complete (sup : List (String × ℚ)) :
    ∀ (seen : List (String × ℚ)) (l : List Entry), ∀ e ∈ l, entryKey e ∉ sup →
      entryKey e ∈ seen ∨ entryKey e ∈ (mergeAux sup seen l).map entryKey := by
  intro seen l
  induction l generalizing seen with
  | nil => intro e he; exact absurd he (List.not_mem_nil e)
  | cons a rest ih =>
    intro e he hsup
    rw [mergeAux_cons]
    by_cases hc : entryKey a ∉ seen ∧ entryKey a ∉ sup
    · rw [if_pos hc]
      rcases List.mem_cons.mp he with rfl | hrest
      · right
        exact List.mem_map_of_mem entryKey (List.mem_cons_self _ _)
      · rcases ih (entryKey a :: seen) e hrest hsup with hseen | hmap
        · rcases List.mem_cons.mp hseen with heq | hseen2
          · right
            rw [heq, List.map_cons]
            exact List.mem_cons_self _ _
          · exact Or.inl hseen2
        · right
          rw [List.map_cons]
          exact List.mem_cons_of_mem _ hmap
    · rw [if_neg hc]
      rcases List.mem_cons.mp he with rfl | hrest
      · push_neg at hc
        by_cases hs : entryKey e ∈ seen
        · exact Or.inl hs
        · exact absurd (hc hs) hsup
      · exact ih seen e hrest hsup

/-- The appended entries have pairwise distinct keys. -/
lemma mergeAux_nodup (sup : List (String × ℚ)) :
    ∀ (seen : List (String × ℚ)) (l : List Entry),
      ((mergeAux sup seen l).map entryKey).Nodup := by
  intro seen l
  induction l generalizing seen with
  | nil => simp [mergeAux_nil]
  | cons a rest ih =>
    rw [mergeAux_cons]
    by_cases hc : entryKey a ∉ seen ∧ entryKey a ∉ sup
    · rw [if_pos hc, List.map_cons, List.nodup_cons]
      refine ⟨?_, ih _⟩
      intro hmem
      rcases List.mem_map.mp hmem with ⟨e, he, hkey⟩
      have h := mergeAux_not_seen sup (entryKey a :: seen) rest e he
      apply h.1
      rw [hkey]
      exact List.mem_cons_self _ _
    · rw [if_neg hc]
      exact ih _

/-- When every catalog key is already seen or suppressed, nothing is
appended. -/
lemma mergeAux_eq_nil (sup : List (String × ℚ)) :
    ∀ (seen : List (String × ℚ)) (l : List Entry),
      (∀ e ∈ l, entryKey e ∈ seen ∨ entryKey e ∈ sup) → mergeAux sup seen l = [] := by
  intro seen l
  induction l generalizing seen with
  | nil => intro _; rfl
  | cons a rest ih =>
    intro h
    rw [mergeAux_cons]
    have hc : ¬(entryKey a ∉ seen ∧ entryKey a ∉ sup) := by
      rcases h a (List.mem_cons_self _ _) with h1 | h2
      · exact fun hy => hy.1 h1
      · exact fun hy => hy.2 h2
    rw [if_neg hc]
    exact ih seen fun e he => h e (List.mem_cons_of_mem _ he)

/-- On a catalog with pairwise distinct keys, the loop is a plain filter. -/
lemma mergeAux_eq_filter (sup : List (String × ℚ)) :
    ∀ (seen : List (String × ℚ)) (l : List Entry), ((l.map entryKey).Nodup) →
      mergeAux sup seen l
        = l.filter (fun e => decide (entryKey e ∉ seen ∧ entryKey e ∉ sup)) := by
  intro seen l
  induction l generalizing seen with
  | nil => intro _; rfl
  | cons a rest ih =>
    intro hnd
    rw [List.map_cons, List.nodup_cons] at hnd
    obtain ⟨ha, hrest⟩ := hnd
    rw [mergeAux_cons, List.filter_cons]
    by_cases hc : entryKey a ∉ seen ∧ entryKey a ∉ sup
    · rw [if_pos hc, if_pos (by simpa using hc), ih (entryKey a :: seen) hrest]
      congr 1
      apply List.filter_congr
      intro x hx
      have hne : entryKey x ≠ entryKey a := fun h => ha (h ▸ List.mem_map_of_mem entryKey hx)
      simp only [decide_eq_decide]
      constructor
      · rintro ⟨h1, h2⟩
        exact ⟨fun hm => h1 (List.mem_cons_of_mem _ hm), h2⟩
      · rintro ⟨h1, h2⟩
        refine ⟨fun hm => ?_, h2⟩
        rcases List.mem_cons.mp hm with heq | hm2
        · exact hne heq
        · exact h1 hm2
    · rw [if_neg hc, if_neg (by simpa using hc)]
      exact ih seen hrest

/-- C2: `mergeDefaultEntries existing catalog suppressed` is `existing`
followed by an appended block that is a subsequence of the catalog (so
catalog order is preserved), consists only of entries whose key is in
neither the existing keys nor the suppressed keys, covers the key of every
such catalog entry, and introduces no duplicate keys; consequently, after
every `ensureState` the entry list contains the key of every non-suppressed
hard-coded default entry. -/
theorem mergeDefaultEntries_C2 (existing catalog suppressed : List Entry) :
    ∃ appended : List Entry,
      mergeDefaultEntries existing catalog suppressed = existing ++ appended ∧
      appended.Sublist catalog ∧
      (∀ e ∈ appended,
        entryKey e ∉ existing.map entryKey ∧ entryKey e ∉ suppressed.map entryKey) ∧
      (∀ e ∈ catalog, entryKey e ∉ existing.map entryKey →
        entryKey e ∉ suppressed.map entryKey → entryKey e ∈ appended.map entryKey) ∧
      ((appended.map entryKey).Nodup) ∧
      (∀ s : State, ∀ e ∈ hard_coded_dates,
        entryKey e ∉ s.suppressedDefaults.map entryKey →
        entryKey e ∈ (ensureState s).entries.map entryKey) := by
  refine ⟨mergeAux (suppressed.map entryKey) (existing.map entryKey) catalog,
    rfl, mergeAux_sublist _ _ _, mergeAux_not_seen _ _ _, ?_, mergeAux_nodup _ _ _, ?_⟩
  · intro e he hex hsup
    rcases mergeAux_complete _ _ _ e he hsup with h | h
    · exact absurd h hex
    · exact h
  · intro s e he hsup
    have hms : (ensureState s).entries
        = s.entries ++ mergeAux (s.suppressedDefaults.map entryKey) (s.entries.map entryKey)
            hard_coded_dates := rfl
    rw [hms, List.map_append, List.mem_append]
    exact mergeAux_complete _ _ _ e he hsup

/-- C4: `mergeDefaultEntries` is idempotent — reconciling a second time
with the same catalog and suppressed set appends nothing, because every
non-suppressed catalog key is already present after the first merge. -/
theorem mergeDefaultEntries_C4 (E catalog S : List Entry) :
    mergeDefaultEntries (mergeDefaultEntries E catalog S) catalog S
      = mergeDefaultEntries E catalog S := by
  have hnil : mergeAux (S.map entryKey)
      ((E ++ mergeAux (S.map entryKey) (E.map entryKey) catalog).map entryKey) catalog = [] := by
    apply mergeAux_eq_nil
    intro e he
    by_cases hs : entryKey e ∈ S.map entryKey
    · exact Or.inr hs
    · left
      rw [List.map_append, List.mem_append]
      exact mergeAux_complete _ _ _ e he hs
  show (E ++ mergeAux (S.map entryKey) (E.map entryKey) catalog)
      ++ mergeAux (S.map entryKey)
          ((E ++ mergeAux (S.map entryKey) (E.map entryKey) catalog).map entryKey) catalog
    = E ++ mergeAux (S.map entryKey) (E.map entryKey) catalog
  rw [hnil, List.append_nil]

/-- C5: `addSuppressedDefault` leaves the suppressed list unchanged when
the deleted entry's key is not a catalog key, leaves it unchanged when the
key is already suppressed, and otherwise appends exactly that entry's
key-bearing record at the end. -/
theorem addSuppressedDefault_C5 (entry : Entry) (suppressed defaults : List Entry) :
    (entryKey entry ∉ defaults.map entryKey →
      addSuppressedDefault entry suppressed defaults = suppressed) ∧
    (entryKey entry ∈ suppressed.map entryKey →
      addSuppressedDefault entry suppressed defaults = suppressed) ∧
    (entryKey entry ∈ defaults.map entryKey → entryKey entry ∉ suppressed.map entryKey →
      addSuppressedDefault entry suppressed defaults
        = suppressed ++ [{ date := entry.date, hours := entry.hours }]) := by
  unfold addSuppressedDefault
  refine ⟨?_, ?_, ?_⟩
  · intro h
    rw [if_pos h]
  · intro h
    by_cases hd : entryKey entry ∉ defaults.map entryKey
    · rw [if_pos hd]
    · rw [if_neg hd, if_pos h]
  · intro hd hs
    rw [if_neg (not_not_intro hd), if_neg hs]

/-- C5 witness: deleting the catalog entry 2025-12-26/8h with an empty
suppressed list appends its key record. -/
theorem addSuppressedDefault_C5_witness :
    addSuppressedDefault { date := "2025-12-26", hours := 8 } [] hard_coded_dates
      = [{ date := "2025-12-26", hours := 8 }] := by
  have h := (addSuppressedDefault_C5 { date := "2025-12-26", hours := 8 } [] hard_coded_dates).2.2
    (by decide) (by decide)
  exact h

/-- Splitting the used-hours sum into the contribution of entries whose
date normalizes (those with normalized date at most the target) and the
contribution of entries whose date fails to normalize (counted exactly
when the target timestamp is at least 0, i.e. the local epoch midnight,
because of the JS null-to-0 coercion). -/
lemma usedHours_split (tt : ℤ) :
    ∀ l : List Entry,
      ((l.filter (usedPred tt)).map (fun e => e.hours)).sum =
        ((l.filter fun e =>
            ((toStartOfDay e.date).map fun d => decide (d ≤ tt)).getD false).map
              (fun e => e.hours)).sum
          + (if (0 : ℤ) ≤ tt then
              ((l.filter fun e => (toStartOfDay e.date).isNone).map (fun e => e.hours)).sum
            else 0) := by
  intro l
  induction l with
  | nil => simp
  | cons a rest ih =>
    simp only [List.filter_cons]
    rcases hd : toStartOfDay a.date with _ | d
    · have hpred : usedPred tt a = decide ((0 : ℤ) ≤ tt) := by simp [usedPred, hd]
      by_cases h0 : (0 : ℤ) ≤ tt
      · simp [hpred, h0, ih]
        ring
      · simp [hpred, h0, ih]
    · have hpred : usedPred tt a = decide (d ≤ tt) := by simp [usedPred, hd]
      by_cases hle : d ≤ tt
      · simp only [hpred, hle, decide_True, if_pos, List.map_cons, List.sum_cons, ih,
          Option.map_some', Option.getD_some, Option.isNone_some, Bool.false_eq_true,
          if_false, if_true]
        ring
      · simp only [hpred, hle, decide_False, List.map_cons, List.sum_cons, ih,
          Option.map_some', Option.getD_some, Option.isNone_some, Bool.false_eq_true,
          if_false]

/-- C3 amended: when the target normalizes to `tt`, `calculateUsedHours`
returns the sum of hours over entries whose normalized date is at most
`tt`, PLUS — because the JS comparison coerces a null normalization result
to 0 — the sum of hours over entries whose date fails to normalize
whenever `0 ≤ tt` (target on or after the local epoch midnight); when the
target itself fails to normalize the result is 0. -/
theorem calculateUsedHours_C3_amended (t : String) (s : State) :
    (toStartOfDay t = none → calculateUsedHours t s = 0) ∧
    (∀ tt : ℤ, toStartOfDay t = some tt →
      calculateUsedHours t s =
        ((s.entries.filter fun e =>
            ((toStartOfDay e.date).map fun d => decide (d ≤ tt)).getD false).map
              (fun e => e.hours)).sum
          + (if (0 : ℤ) ≤ tt then
              ((s.entries.filter fun e => (toStartOfDay e.date).isNone).map
                (fun e => e.hours)).sum
            else 0)) := by
  constructor
  · intro h
    unfold calculateUsedHours
    rw [h]
  · intro tt h
    unfold calculateUsedHours
    rw [h]
    exact usedHours_split tt s.entries

/-- C3 counterexample: an entry whose date fails to normalize (the empty
string) contributes its full 5 hours — not 0 as the claim states — when
the target is a valid post-epoch date, because the JS comparison
`null <= target` coerces null to 0. -/
theorem calculateUsedHours_C3_counterexample :
    calculateUsedHours "2025-01-01"
        { startDate := "2025-01-01", entries := [{ date := "", hours := 5 }],
          suppressedDefaults := [] } = 5 ∧
    toStartOfDay "" = none ∧ (5 : ℚ) ≠ 0 := by
  refine ⟨?_, rfl, by norm_num⟩
  have ht : toStartOfDay "2025-01-01" = some 1735689600000 := by decide
  have hp : usedPred 1735689600000 { date := "", hours := 5 } = true := by decide
  unfold calculateUsedHours
  rw [ht]
  simp [hp]

/-- C3 witness: a parseable entry on/before the target contributes its 4
hours and an unparseable-date entry contributes its 3 hours, totalling 7. -/
theorem calculateUsedHours_C3_witness :
    calculateUsedHours "2025-01-02"
        { startDate := "2025-01-01",
          entries := [{ date := "2025-01-01", hours := 4 }, { date := "bad-date", hours := 3 }],
          suppressedDefaults := [] } = 7 := by
  have h := (calculateUsedHours_C3_amended "2025-01-02"
    { startDate := "2025-01-01",
      entries := [{ date := "2025-01-01", hours := 4 }, { date := "bad-date", hours := 3 }],
      suppressedDefaults := [] }).2 1735776000000 (by decide)
  rw [h]
  have e1 : ((toStartOfDay "2025-01-01").map fun d =>
      decide (d ≤ (1735776000000 : ℤ))).getD false = true := by decide
  have e2 : ((toStartOfDay "bad-date").map fun d =>
      decide (d ≤ (1735776000000 : ℤ))).getD false = false := by decide
  have e3 : (toStartOfDay "2025-01-01").isNone = false := by decide
  have e4 : (toStartOfDay "bad-date").isNone = true := by decide
  simp [e1, e2, e3, e4]
  norm_num

/-- C6 counterexample: clearing all entries from the default state and
reloading through `ensureState` does NOT leave the entry list empty — the
reconciliation re-merges all five hard-coded default entries. -/
theorem clearEntries_C6_counterexample :
    (clearEntriesHandler defaultState).entries = hard_coded_dates ∧
    hard_coded_dates ≠ ([] : List Entry) := by
  constructor
  · decide
  · decide

/-- C6 amended: the clear-all operation persists a record with `entries`
emptied while keeping `startDate` and `suppressedDefaults` (the record is
not destroyed), but the subsequent `ensureState` re-merges the default
catalog, so the resulting entry list is exactly the hard-coded defaults
whose keys are not suppressed — empty only when every catalog key is
suppressed. -/
theorem clearEntries_C6_amended (s : State) :
    (clearEntriesHandler s).entries
      = hard_coded_dates.filter
          (fun e => decide (entryKey e ∉ s.suppressedDefaults.map entryKey)) ∧
    (clearEntriesHandler s).suppressedDefaults = s.suppressedDefaults ∧
    (clearEntriesHandler s).startDate = (ensureState s).startDate := by
  have hnd : (hard_coded_dates.map entryKey).Nodup := by decide
  have hstart : (ensureState s).startDate ≠ "" := by
    show (if s.startDate = "" then defaultState.startDate else s.startDate) ≠ ""
    by_cases h : s.startDate = ""
    · rw [if_pos h]
      decide
    · rw [if_neg h]
      exact h
  refine ⟨?_, rfl, ?_⟩
  · show ([] : List Entry) ++ mergeAux (s.suppressedDefaults.map entryKey)
        (([] : List Entry).map entryKey) hard_coded_dates = _
    rw [List.nil_append, List.map_nil, mergeAux_eq_filter _ _ _ hnd]
    apply List.filter_congr
    intro x _
    simp
  · show (if (ensureState s).startDate = "" then defaultState.startDate
        else (ensureState s).startDate) = (ensureState s).startDate
    rw [if_neg hstart]

/-- C7 counterexample: a stored `startDate` that is a non-empty string but
not a valid calendar day ("garbage") survives `ensureState` unchanged — it
is not replaced by the default, contradicting the claimed invariant. -/
theorem ensureState_C7_counterexample :
    (ensureState { startDate := "garbage", entries := [], suppressedDefaults := [] }).startDate
        = "garbage" ∧
    toStartOfDay "garbage" = none ∧
    "garbage" ≠ defaultState.startDate := by
  refine ⟨by decide, rfl, by decide⟩

/-- C7 amended: after load and `ensureState`, the startDate is the default
exactly when the stored field was absent or the empty string; any other
stored string — valid calendar day or not — is kept as-is (an invalid one
then fails to normalize downstream, making the accrual 0). -/
theorem ensureState_C7_amended (p : ParsedState) :
    (ensureState (loadState (RawState.ok p))).startDate
      = (match p.startDate with
         | none => defaultState.startDate
         | some sd => if sd = "" then defaultState.startDate else sd) := by
  obtain ⟨psd, pe, ps⟩ := p
  rcases psd with _ | sd
  · show (if (defaultState.startDate : String) = "" then defaultState.startDate
        else defaultState.startDate) = defaultState.startDate
    rw [if_neg (by decide)]
  · show (if sd = "" then defaultState.startDate else sd)
      = if sd = "" then defaultState.startDate else sd
    rfl

/-- C8 counterexample: when the persisted value is absent, `loadState`
itself performs no write at all (src lines 492-495 return the default
without calling saveState), so "loadState re-persists the default" fails
for the absent case — only the parse-failure branch re-persists. -/
theorem loadState_C8_counterexample :
    loadStateSaves RawState.missing = [] ∧
    loadState RawState.missing = defaultState := ⟨rfl, rfl⟩

/-- C8 amended: on an absent or malformed persisted value, `loadState`
returns the default State — default startDate, empty entries, empty
suppressedDefaults — as a total function (the parse error is swallowed);
it re-persists the literal default only in the parse-failure branch, and
in the absent case writes nothing itself while the enclosing `ensureState`
immediately persists the reconciled default. -/
theorem loadState_C8_amended :
    loadState RawState.missing = defaultState ∧
    loadState RawState.malformed = defaultState ∧
    defaultState.startDate = "2025-09-15" ∧
    defaultState.entries = [] ∧
    defaultState.suppressedDefaults = [] ∧
    loadStateSaves RawState.malformed = [defaultState] ∧
    ensureSaves RawState.missing = [ensureState defaultState] :=
  ⟨rfl, rfl, rfl, rfl, rfl, rfl, rfl⟩

/-- C9: a delete request whose index is not an integer, is negative, or is
at least the length of the stored entry list fails the handler's guard, so
nothing is saved and the canonical reconciled state is exactly the one the
initial `ensureState` produced — no state change, and no error (the
embedding is a total function). -/
theorem deleteHandler_C9 (persisted : State) (index : ℚ)
    (h : ¬(index.den = 1 ∧ 0 ≤ index ∧
        index < ((ensureState persisted).entries.length : ℚ))) :
    deleteHandler persisted index = ensureState persisted := by
  unfold deleteHandler
  rw [if_neg h]

/-- C9 witness: a delete request with index -1 on the default state leaves
the canonical state unchanged. -/
theorem deleteHandler_C9_witness :
    deleteHandler defaultState (-1) = ensureState defaultState :=
  deleteHandler_C9 defaultState (-1) (by
    intro hcon
    exact absurd hcon.2.1 (by norm_num))

/-- C10: when the hours input's numeric value is NaN (non-numeric input)
or 0 (empty string or "0"), the entry the submit handler appends carries
exactly HOURS_PER_DAY = 8 hours; and every entry of the built state is
either a pre-existing one or has non-zero hours, so the add-entry
interface can never record a 0-hour entry. -/
theorem addEntryNext_C10 (s : State) (dateInput todayStr : String) (hoursInput : Option ℚ) :
    ((hoursInput = none ∨ hoursInput = some 0) →
      (addEntryNext s dateInput todayStr hoursInput).entries
        = s.entries ++ [{ date := if dateInput = "" then todayStr else dateInput
                        , hours := HOURS_PER_DAY }]) ∧
    (∀ e ∈ (addEntryNext s dateInput todayStr hoursInput).entries,
      e ∈ s.entries ∨ e.hours ≠ 0) := by
  constructor
  · rintro (rfl | rfl)
    · rfl
    · show s.entries ++ [{ date := _, hours := if (0 : ℚ) = 0 then HOURS_PER_DAY else 0 }]
        = s.entries ++ [{ date := _, hours := HOURS_PER_DAY }]
      rw [if_pos rfl]
  · intro e he
    unfold addEntryNext at he
    rw [List.mem_append] at he
    rcases he with hmem | hlast
    · exact Or.inl hmem
    · right
      rcases List.mem_singleton.mp hlast with rfl
      rcases hoursInput with _ | q
      · show HOURS_PER_DAY ≠ 0
        norm_num [HOURS_PER_DAY]
      · show (if q = 0 then HOURS_PER_DAY else q) ≠ 0
        by_cases hq : q = 0
        · rw [if_pos hq]
          norm_num [HOURS_PER_DAY]
        · rw [if_neg hq]
          exact hq

/-- C10 witness: submitting with hours input whose numeric value is 0
appends an 8-hour entry on the given date. -/
theorem addEntryNext_C10_witness :
    (addEntryNext defaultState "2025-01-02" "2025-01-01" (some 0)).entries
      = defaultState.entries
          ++ [{ date := "2025-01-02", hours := HOURS_PER_DAY }] := by
  have h := (addEntryNext_C10 defaultState "2025-01-02" "2025-01-01" (some 0)).1
    (Or.inr rfl)
  rw [h]
  rw [if_neg (by decide : ¬("2025-01-02" = ""))]

end PTO
